import Mathlib

/-!
# luna-webkit-api: the IME data interface and the virtual keyboard interface

A shallow embedding of the executable parts of
`include/public/ime/IMEDataInterface.h` and `include/public/ime/VirtualKeyboard.h`:

* `IMEData<T>`, the observable field (`get`, `set`, signal `valueChanged`);
* `IMEDataInterface`, its seven observable fields and the default body of
  `invalidateRect`, which emits `signalInvalidateRect`;
* `VirtualKeyboard`, its constructor and `hide()`;
* `VirtualKeyboardFactory::EVirtualKeyboardSupport`, the fit-quality enumeration.

Conventions of the embedding.

* `Q_EMIT sig(args)` is recorded as one entry of a list of emitted signals,
  returned next to the new state, in emission order.
* A call of a pure virtual method through a pointer is recorded as one entry of a
  list of calls (pointer, method); what the callee does is outside these headers.
* `T`'s `operator==` is a parameter `eq : T → T → Bool`; `eq a b` is `a == b`.
  The copy assignment `m_value = value` stores `value`.
* Pointers are natural numbers, `0` being the null pointer.
* Qt types that the headers only name (`QSize`, `QRect`, `QRegion`, `EditorState`)
  are type parameters.
-/

/-! ## `IMEData<T>` -/

/-- The observable field `template <class T> class IMEData`: its only data member is
`T m_value`. The header keeps the template under `#if 0` and states that the field
classes of `IMEData.h` are its explicit equivalent, one per type `T`. -/
structure IMEData (T : Type) where
  m_value : T
deriving DecidableEq, Repr

/-- Signals of `IMEData<T>`: `void valueChanged(const T & newValue)`. -/
inductive IMEDataSignal (T : Type) where
  | valueChanged (newValue : T)
deriving DecidableEq, Repr

namespace IMEDataSignal

/-- The value a `valueChanged` signal carries. -/
def newValue {T : Type} : IMEDataSignal T → T
  | valueChanged v => v

end IMEDataSignal

namespace IMEData

variable {T : Type}

/-- The accessor `const T & get() const { return m_value; }`. -/
def get (self : IMEData T) : T :=
  self.m_value

/-- The body of `void set(const T & value)`:
`if (!(value == m_value)) { m_value = value; Q_EMIT valueChanged(value); }`.
Returns the field after the call and the signals emitted by the call. -/
def set (eq : T → T → Bool) (self : IMEData T) (value : T) :
    IMEData T × List (IMEDataSignal T) :=
  if !(eq value self.m_value) then
    ({ self with m_value := value }, [IMEDataSignal.valueChanged value])
  else
    (self, [])

/-- The calls `set(v1); ...; set(vn)` in this order: the field after the last call and
the signals emitted by all of them, in emission order. -/
def setAll (eq : T → T → Bool) (self : IMEData T) :
    List T → IMEData T × List (IMEDataSignal T)
  | [] => (self, [])
  | v :: vs =>
    let r := set eq self v
    let rest := setAll eq r.1 vs
    (rest.1, r.2 ++ rest.2)

/-- The values carried by the signals that `set(v1); ...; set(vn)` emit. -/
def emitted (eq : T → T → Bool) (self : IMEData T) (vs : List T) : List T :=
  (setAll eq self vs).2.map IMEDataSignal.newValue

/-- The words of the claim about the signal trace: the argument sequence with every
argument equal (under `==`) to its predecessor removed, the predecessor of the first
argument being `prev`. -/
def dropEqualToPredecessor (eq : T → T → Bool) : T → List T → List T
  | _, [] => []
  | prev, v :: vs =>
    if eq v prev then dropEqualToPredecessor eq v vs
    else v :: dropEqualToPredecessor eq v vs

end IMEData

/-! ## `IMEDataInterface` -/

/-- The observable fields of `class IMEDataInterface`, in declaration order. The field
classes `IMEData_QSize`, `IMEData_QRect`, `IMEData_bool`, `IMEData_EditorState`,
`IMEData_qint32` and `IMEData_QRegion` are the explicit instances of `IMEData<T>`. -/
structure IMEDataInterface (QSize QRect EditorState QRegion : Type) where
  m_screenSize : IMEData QSize
  m_availableSpace : IMEData QRect
  m_visible : IMEData Bool
  m_editorState : IMEData EditorState
  m_autoCap : IMEData Bool
  m_keyboardHeight : IMEData Int
  m_hitRegion : IMEData QRegion

/-- Signals of `IMEDataInterface`: `void signalInvalidateRect(const QRect& rect)`. -/
inductive IMEDataInterfaceSignal (QRect : Type) where
  | signalInvalidateRect (rect : QRect)
deriving DecidableEq, Repr

/-- The virtual methods of `IMEDataInterface`, in declaration order. -/
inductive IMEDataInterfaceMethod where
  | touchEvent
  | tapEvent
  | paint
  | screenEdgeFlickEvent
  | sendKeyEvent
  | invalidateRect
  | setComposingText
  | commitComposingText
  | commitText
  | performEditorAction
  | requestHide
  | isUIAnimationActive
  | keyDownAudioFeedback
  | applyInitSettings
  | activateCombo
  | selectKeyboardCombo
  | selectLayoutCombo
  | selectNextKeyboardCombo
  | createDefaultKeyboards
  | clearDefaultDeyboards
  | toggleTapSounds
  | getTapSounds
  | getKeyboardComboCount
  | getSpaces2period
  | selectKeyboardSize
  | getLanguageFromKeyboardCombo
  | getLayoutFromKeyboardCombo
  | getLunaSystemSetting
  | getLocalizedString
  | getLocale
  | createRemoveBannerMessage
  | createAddBannerMessage
  | virtualKeyboardPreferences
  | getLunaServiceHandle
deriving DecidableEq, Repr

namespace IMEDataInterface

variable {QSize QRect EditorState QRegion : Type}

/-- The default body of `virtual void invalidateRect(const QRect& rect)`:
`{ Q_EMIT signalInvalidateRect(rect); }`. Returns the interface after the call and the
signals emitted by the call. -/
def invalidateRect (self : IMEDataInterface QSize QRect EditorState QRegion) (rect : QRect) :
    IMEDataInterface QSize QRect EditorState QRegion × List (IMEDataInterfaceSignal QRect) :=
  (self, [IMEDataInterfaceSignal.signalInvalidateRect rect])

end IMEDataInterface

/-! ## `VirtualKeyboard` -/

/-- The data member of `class VirtualKeyboard`: `IMEDataInterface *m_IMEDataInterface`. -/
structure VirtualKeyboard where
  m_IMEDataInterface : Nat
deriving DecidableEq, Repr

/-- The constructor `explicit VirtualKeyboard(IMEDataInterface *dataInterface) :
m_IMEDataInterface(dataInterface) {}` (a definition cannot bear the name of its own
structure here, hence `construct`). -/
def VirtualKeyboard.construct (dataInterface : Nat) : VirtualKeyboard :=
  { m_IMEDataInterface := dataInterface }

/-- The body of `void hide() { m_IMEDataInterface->requestHide(); }`. Returns the keyboard
after the call and the calls made on data interfaces, each with the pointer it went
through; `none` when the pointer dereferenced is null. -/
def VirtualKeyboard.hide (self : VirtualKeyboard) :
    Option (VirtualKeyboard × List (Nat × IMEDataInterfaceMethod)) :=
  if self.m_IMEDataInterface = 0 then none
  else some (self, [(self.m_IMEDataInterface, IMEDataInterfaceMethod.requestHide)])

/-! ## `VirtualKeyboardFactory::EVirtualKeyboardSupport` -/

/-- The enumeration `EVirtualKeyboardSupport`, which describes how well a virtual
keyboard fits to a device. -/
inductive EVirtualKeyboardSupport where
  | eVirtualKeyboardSupport_NotSupported
  | eVirtualKeyboardSupport_Poor
  | eVirtualKeyboardSupport_Preferred_Size
  | eVirtualKeyboardSupport_Preferred_Locale
  | eVirtualKeyboardSupport_Preferred_SizeAndLocale
  | eVirtualKeyboardSupport_Preferred_SizeDpiAndLocale
deriving DecidableEq, Repr

namespace EVirtualKeyboardSupport

/-- The enumerators in the order in which the `typedef enum` declares them. -/
def enumerators : List EVirtualKeyboardSupport :=
  [eVirtualKeyboardSupport_NotSupported,
   eVirtualKeyboardSupport_Poor,
   eVirtualKeyboardSupport_Preferred_Size,
   eVirtualKeyboardSupport_Preferred_Locale,
   eVirtualKeyboardSupport_Preferred_SizeAndLocale,
   eVirtualKeyboardSupport_Preferred_SizeDpiAndLocale]

/-- The integer value of an enumerator. No enumerator has an initializer, so the first
has the value `0` and each next one the value of the one before it plus `1`: the value is
the position in the declaration. -/
def value (e : EVirtualKeyboardSupport) : Int :=
  (enumerators.indexOf e : Nat)

end EVirtualKeyboardSupport

/-! ## An `==` to instantiate the statements with -/

/-- Equality of naturals modulo 2, an `==` that is an equivalence and identifies
different values; used to instantiate the statements. -/
def sameParity (a b : Nat) : Bool :=
  a % 2 == b % 2

theorem sameParity_refl (x : Nat) : sameParity x x = true := by
  simp [sameParity]

theorem sameParity_symm (x y : Nat) (h : sameParity x y = true) : sameParity y x = true := by
  simp only [sameParity, beq_iff_eq] at h ⊢
  exact h.symm

theorem sameParity_trans (x y z : Nat) (h1 : sameParity x y = true)
    (h2 : sameParity y z = true) : sameParity x z = true := by
  simp only [sameParity, beq_iff_eq] at h1 h2 ⊢
  exact h1.trans h2

/-! ## Lemmas on `IMEData<T>` -/

namespace IMEData

variable {T : Type}

theorem set_of_ne (eq : T → T → Bool) (self : IMEData T) (v : T)
    (h : eq v self.m_value = false) :
    set eq self v = ({ m_value := v }, [IMEDataSignal.valueChanged v]) := by
  simp [set, h]

theorem set_of_eq (eq : T → T → Bool) (self : IMEData T) (v : T)
    (h : eq v self.m_value = true) :
    set eq self v = (self, []) := by
  simp [set, h]

theorem setAll_cons_of_ne (eq : T → T → Bool) (self : IMEData T) (v : T) (vs : List T)
    (h : eq v self.m_value = false) :
    setAll eq self (v :: vs) =
      ((setAll eq { m_value := v } vs).1,
        IMEDataSignal.valueChanged v :: (setAll eq { m_value := v } vs).2) := by
  simp [setAll, set_of_ne eq self v h]

theorem setAll_cons_of_eq (eq : T → T → Bool) (self : IMEData T) (v : T) (vs : List T)
    (h : eq v self.m_value = true) :
    setAll eq self (v :: vs) = setAll eq self vs := by
  simp [setAll, set_of_eq eq self v h]

theorem emitted_nil (eq : T → T → Bool) (self : IMEData T) : emitted eq self [] = [] := by
  simp [emitted, setAll]

theorem emitted_cons_of_ne (eq : T → T → Bool) (self : IMEData T) (v : T) (vs : List T)
    (h : eq v self.m_value = false) :
    emitted eq self (v :: vs) = v :: emitted eq { m_value := v } vs := by
  simp [emitted, setAll_cons_of_ne eq self v vs h, IMEDataSignal.newValue]

theorem emitted_cons_of_eq (eq : T → T → Bool) (self : IMEData T) (v : T) (vs : List T)
    (h : eq v self.m_value = true) :
    emitted eq self (v :: vs) = emitted eq self vs := by
  simp [emitted, setAll_cons_of_eq eq self v vs h]

/-- The stored value after a sequence of calls is the value of the last signal emitted,
or the initial value when none was emitted. -/
theorem getLast_emitted (eq : T → T → Bool) (self : IMEData T) (vs : List T) :
    (emitted eq self vs).getLast?.getD self.m_value = get (setAll eq self vs).1 := by
  induction vs generalizing self with
  | nil => simp [emitted, setAll, get]
  | cons v vs ih =>
    cases h : eq v self.m_value
    · rw [emitted_cons_of_ne eq self v vs h, setAll_cons_of_ne eq self v vs h]
      have := ih { m_value := v }
      rw [← this]
      cases hl : emitted eq { m_value := v } vs with
      | nil => simp
      | cons a l =>
        obtain ⟨x, hx⟩ : ∃ x, (a :: l).getLast? = some x :=
          ⟨_, List.getLast?_eq_getLast _ (List.cons_ne_nil a l)⟩
        simp [List.getLast?_cons_cons, hx]
    · rw [emitted_cons_of_eq eq self v vs h, setAll_cons_of_eq eq self v vs h]
      exact ih self

/-- Every emitted value fails `==` against the value emitted before it, the first one
against the initial stored value. -/
theorem chain_emitted (eq : T → T → Bool) (self : IMEData T) (vs : List T) :
    List.Chain (fun a b => eq b a = false) self.m_value (emitted eq self vs) := by
  induction vs generalizing self with
  | nil => simp [emitted_nil]
  | cons v vs ih =>
    cases h : eq v self.m_value
    · rw [emitted_cons_of_ne eq self v vs h]
      exact List.Chain.cons h (ih { m_value := v })
    · rw [emitted_cons_of_eq eq self v vs h]
      exact ih self

/-- With `==` an equivalence and the stored value `==` to the predecessor `prev`, the
emitted values are the arguments that are not `==` to their predecessor. -/
theorem emitted_eq_drop (eq : T → T → Bool)
    (hrefl : ∀ x, eq x x = true)
    (hsymm : ∀ x y, eq x y = true → eq y x = true)
    (htrans : ∀ x y z, eq x y = true → eq y z = true → eq x z = true)
    (self : IMEData T) (prev : T) (hp : eq self.m_value prev = true) (vs : List T) :
    emitted eq self vs = dropEqualToPredecessor eq prev vs := by
  induction vs generalizing self prev with
  | nil => simp [emitted_nil, dropEqualToPredecessor]
  | cons v vs ih =>
    cases h : eq v self.m_value
    · have hvp : eq v prev = false := by
        cases h2 : eq v prev
        · rfl
        · have := htrans v prev self.m_value h2 (hsymm _ _ hp)
          rw [h] at this
          exact absurd this (by decide)
      rw [emitted_cons_of_ne eq self v vs h]
      simp only [dropEqualToPredecessor, hvp]
      rw [ih { m_value := v } v (hrefl v)]
      simp
    · have hvp : eq v prev = true := htrans v self.m_value prev h hp
      rw [emitted_cons_of_eq eq self v vs h]
      simp only [dropEqualToPredecessor, hvp]
      rw [ih self v (hsymm _ _ h)]
      simp

end IMEData

/-! ## Claims on `IMEData<T>` -/

namespace IMEData

variable {T : Type}

/-- C6: change notification of `set` is exact. For every stored value `m` and argument
`v`, `set(v)` emits exactly the one signal `valueChanged(v)` if and only if `v == m` is
false; in that case the stored value becomes `v`; when `v == m` holds, no signal is
emitted and the stored value stays `m`. -/
theorem set_notification_exact (eq : T → T → Bool) (m v : T) :
    ((set eq { m_value := m } v).2 = [IMEDataSignal.valueChanged v] ↔ eq v m = false) ∧
    (eq v m = false →
      (set eq { m_value := m } v).2 = [IMEDataSignal.valueChanged v] ∧
      get (set eq { m_value := m } v).1 = v) ∧
    (eq v m = true →
      (set eq { m_value := m } v).2 = [] ∧
      get (set eq { m_value := m } v).1 = m) := by
  cases h : eq v m <;> simp [set, get, h]

/-- C6 at concrete inputs: `==` is equality modulo 2, the stored value is `4`; `set(7)`
stores `7` and emits `valueChanged(7)`, `set(6)` emits nothing and keeps `4`. -/
theorem set_notification_exact_witness :
    ((set sameParity { m_value := 4 } 7).2 = [IMEDataSignal.valueChanged 7] ∧
      get (set sameParity { m_value := 4 } 7).1 = 7) ∧
    ((set sameParity { m_value := 4 } 6).2 = [] ∧
      get (set sameParity { m_value := 4 } 6).1 = 4) :=
  ⟨(set_notification_exact sameParity 4 7).2.1 (by decide),
   (set_notification_exact sameParity 4 6).2.2 (by decide)⟩

/-- C3, as stated, fails: with the stored value `5` and `==` the equality of naturals,
`set(5)` emits no signal (so not `valueChanged(5)`) and leaves the field as it was. -/
theorem set_always_fires_counterexample :
    (set (fun a b : Nat => a == b) { m_value := 5 } 5).2 = [] ∧
    (set (fun a b : Nat => a == b) { m_value := 5 } 5).2 ≠ [IMEDataSignal.valueChanged 5] ∧
    (set (fun a b : Nat => a == b) { m_value := 5 } 5).1 = { m_value := 5 } := by
  decide

/-- C3, amended: for every field state and every value `v` for which `v == m_value` is
false, `set(v)` changes the stored value to `v` (a value that is not `==` to the old one)
and emits exactly the one signal `valueChanged(v)`. -/
theorem set_fires_when_different (eq : T → T → Bool) (self : IMEData T) (v : T)
    (h : eq v (get self) = false) :
    get (set eq self v).1 = v ∧
    eq (get (set eq self v).1) (get self) = false ∧
    (set eq self v).2 = [IMEDataSignal.valueChanged v] := by
  have h2 : eq v self.m_value = false := h
  rw [set_of_ne eq self v h2]
  exact ⟨rfl, h, rfl⟩

/-- C3 amended, at a concrete input: `==` is equality modulo 2, the stored value is `4`,
and `set(7)` stores `7` and emits `valueChanged(7)`. -/
theorem set_fires_when_different_witness :
    sameParity 7 (get ({ m_value := 4 } : IMEData Nat)) = false ∧
    get (set sameParity { m_value := 4 } 7).1 = 7 ∧
    sameParity (get (set sameParity { m_value := 4 } 7).1) (get ({ m_value := 4 } : IMEData Nat))
      = false ∧
    (set sameParity { m_value := 4 } 7).2 = [IMEDataSignal.valueChanged 7] :=
  ⟨by decide, set_fires_when_different sameParity { m_value := 4 } 7 (by decide)⟩

/-- C7: `set` is idempotent. With `==` reflexive, for every field state and every value
`v`, `set(v)` performed twice in a row leaves the same stored value as `set(v)`
performed once, and the second call emits no `valueChanged` signal. -/
theorem set_idempotent (eq : T → T → Bool) (hrefl : ∀ x, eq x x = true)
    (self : IMEData T) (v : T) :
    get (set eq (set eq self v).1 v).1 = get (set eq self v).1 ∧
    (set eq (set eq self v).1 v).2 = [] := by
  cases h : eq v self.m_value
  · rw [set_of_ne eq self v h]
    have h2 : eq v ({ m_value := v } : IMEData T).m_value = true := hrefl v
    rw [set_of_eq eq { m_value := v } v h2]
    exact ⟨rfl, rfl⟩
  · rw [set_of_eq eq self v h, set_of_eq eq self v h]
    exact ⟨rfl, rfl⟩

/-- C7 at a concrete input: `==` is equality modulo 2, the stored value is `4`, the
value set twice is `7`. -/
theorem set_idempotent_witness :
    get (set sameParity (set sameParity { m_value := 4 } 7).1 7).1
      = get (set sameParity { m_value := 4 } 7).1 ∧
    (set sameParity (set sameParity { m_value := 4 } 7).1 7).2 = [] :=
  set_idempotent sameParity sameParity_refl { m_value := 4 } 7

/-- C8: the signal trace never repeats a value back to back. With `==` an equivalence,
for every initial stored value `m0` and every sequence of `set` calls, the values
carried by the emitted `valueChanged` signals are the arguments with every argument
`==` to its predecessor (`m0` for the first) removed; the first emitted value is not
`==` to `m0`, no two consecutive emitted values are `==`, and when a signal was emitted
the last emitted value is what `get()` returns afterwards. -/
theorem signal_trace (eq : T → T → Bool)
    (hrefl : ∀ x, eq x x = true)
    (hsymm : ∀ x y, eq x y = true → eq y x = true)
    (htrans : ∀ x y z, eq x y = true → eq y z = true → eq x z = true)
    (m0 : T) (vs : List T) :
    emitted eq { m_value := m0 } vs = dropEqualToPredecessor eq m0 vs ∧
    (∀ e, (emitted eq { m_value := m0 } vs).head? = some e →
      eq e m0 = false ∧ eq m0 e = false) ∧
    List.Chain' (fun a b => eq b a = false ∧ eq a b = false)
      (emitted eq { m_value := m0 } vs) ∧
    (emitted eq { m_value := m0 } vs ≠ [] →
      (emitted eq { m_value := m0 } vs).getLast?
        = some (get (setAll eq { m_value := m0 } vs).1)) := by
  have hc : List.Chain (fun a b => eq b a = false ∧ eq a b = false) m0
      (emitted eq { m_value := m0 } vs) := by
    refine List.Chain.imp ?_ (chain_emitted eq { m_value := m0 } vs)
    intro a b hba
    refine ⟨hba, ?_⟩
    cases hab : eq a b
    · rfl
    · rw [hsymm a b hab] at hba
      exact absurd hba (by decide)
  have hl := getLast_emitted eq { m_value := m0 } vs
  refine ⟨emitted_eq_drop eq hrefl hsymm htrans { m_value := m0 } m0 (hrefl m0) vs, ?_, ?_, ?_⟩
  · intro e he
    cases hem : emitted eq { m_value := m0 } vs with
    | nil => rw [hem] at he; simp at he
    | cons a l =>
      rw [hem] at he hc
      simp only [List.head?_cons, Option.some.injEq] at he
      subst he
      exact (List.chain_cons.mp hc).1
  · cases hem : emitted eq { m_value := m0 } vs with
    | nil => exact List.chain'_nil
    | cons a l =>
      rw [hem] at hc
      exact (List.chain_cons.mp hc).2
  · intro hne
    cases hem : emitted eq { m_value := m0 } vs with
    | nil => exact absurd hem hne
    | cons a l =>
      rw [hem] at hl
      obtain ⟨x, hx⟩ : ∃ x, (a :: l).getLast? = some x :=
        ⟨_, List.getLast?_eq_getLast _ (List.cons_ne_nil a l)⟩
      rw [hx] at hl ⊢
      simpa using hl

/-- C8 at a concrete input: `==` is equality modulo 2, the stored value is `4`, the calls
are `set(6); set(7); set(9); set(2); set(2); set(3)`; the emitted values are `7, 2, 3`
and `get()` returns `3` afterwards. -/
theorem signal_trace_witness :
    emitted sameParity { m_value := 4 } [6, 7, 9, 2, 2, 3] = [7, 2, 3] ∧
    emitted sameParity { m_value := 4 } [6, 7, 9, 2, 2, 3]
      = dropEqualToPredecessor sameParity 4 [6, 7, 9, 2, 2, 3] ∧
    (emitted sameParity { m_value := 4 } [6, 7, 9, 2, 2, 3]).getLast?
      = some (get (setAll sameParity { m_value := 4 } [6, 7, 9, 2, 2, 3]).1) :=
  ⟨by decide,
   (signal_trace sameParity sameParity_refl sameParity_symm sameParity_trans 4
      [6, 7, 9, 2, 2, 3]).1,
   (signal_trace sameParity sameParity_refl sameParity_symm sameParity_trans 4
      [6, 7, 9, 2, 2, 3]).2.2.2 (by decide)⟩

end IMEData

/-! ## Claim on `IMEDataInterface::invalidateRect` -/

namespace IMEDataInterface

variable {QSize QRect EditorState QRegion : Type}

/-- C4: the default `invalidateRect(rect)` triggers the emission of
`signalInvalidateRect`. For every interface state and every rectangle `rect`, one call
emits `signalInvalidateRect` exactly once, carrying `rect`, and changes none of the
observable fields `m_screenSize`, `m_availableSpace`, `m_visible`, `m_editorState`,
`m_autoCap`, `m_keyboardHeight`, `m_hitRegion`. -/
theorem invalidateRect_emits_once
    (self : IMEDataInterface QSize QRect EditorState QRegion) (rect : QRect) :
    (invalidateRect self rect).2 = [IMEDataInterfaceSignal.signalInvalidateRect rect] ∧
    (invalidateRect self rect).2.length = 1 ∧
    (invalidateRect self rect).1.m_screenSize = self.m_screenSize ∧
    (invalidateRect self rect).1.m_availableSpace = self.m_availableSpace ∧
    (invalidateRect self rect).1.m_visible = self.m_visible ∧
    (invalidateRect self rect).1.m_editorState = self.m_editorState ∧
    (invalidateRect self rect).1.m_autoCap = self.m_autoCap ∧
    (invalidateRect self rect).1.m_keyboardHeight = self.m_keyboardHeight ∧
    (invalidateRect self rect).1.m_hitRegion = self.m_hitRegion := by
  simp [invalidateRect]

end IMEDataInterface

/-! ## Claim on `VirtualKeyboard::hide` -/

/-- C2: `hide()` forwards to `requestHide()`. For every keyboard constructed with a
non-null data interface `d`, one call of `hide()` returns, having made exactly one call,
`requestHide()` on `d`: `d.requestHide()` is invoked exactly once, no other method of
`d` is invoked, and the stored `m_IMEDataInterface` still equals `d`. -/
theorem hide_forwards_to_requestHide (d : Nat) (hd : d ≠ 0) :
    ∃ vk calls, VirtualKeyboard.hide (VirtualKeyboard.construct d) = some (vk, calls) ∧
      calls = [(d, IMEDataInterfaceMethod.requestHide)] ∧
      calls.count (d, IMEDataInterfaceMethod.requestHide) = 1 ∧
      (∀ m, (d, m) ∈ calls → m = IMEDataInterfaceMethod.requestHide) ∧
      vk.m_IMEDataInterface = d := by
  refine ⟨VirtualKeyboard.construct d, [(d, IMEDataInterfaceMethod.requestHide)],
    ?_, rfl, ?_, ?_, rfl⟩
  · simp [VirtualKeyboard.hide, VirtualKeyboard.construct, hd]
  · simp
  · intro m hm
    simpa using hm

/-- C2 at a concrete input: the keyboard constructed with the data interface at address
`7`; `hide()` makes the one call `requestHide()` through `7` and keeps the pointer. -/
theorem hide_forwards_to_requestHide_witness :
    (7 : Nat) ≠ 0 ∧
    ∃ vk calls, VirtualKeyboard.hide (VirtualKeyboard.construct 7) = some (vk, calls) ∧
      calls = [(7, IMEDataInterfaceMethod.requestHide)] ∧
      calls.count (7, IMEDataInterfaceMethod.requestHide) = 1 ∧
      (∀ m, (7, m) ∈ calls → m = IMEDataInterfaceMethod.requestHide) ∧
      vk.m_IMEDataInterface = 7 :=
  ⟨by decide, hide_forwards_to_requestHide 7 (by decide)⟩

/-! ## Claim on `EVirtualKeyboardSupport` -/

namespace EVirtualKeyboardSupport

/-- C5: the fit-quality enumeration can rank keyboards. The six enumerators have the
values `0` to `5` in declaration order, so the values are pairwise distinct and strictly
increasing; comparing values is a strict total order on the enumerators, with
`NotSupported` the minimum and `Preferred_SizeDpiAndLocale` the maximum; size and
locale ranks above size alone and above locale alone, and size, DPI and locale ranks
above size and locale. -/
theorem support_values_rank :
    (value eVirtualKeyboardSupport_NotSupported = 0 ∧
      value eVirtualKeyboardSupport_Poor = 1 ∧
      value eVirtualKeyboardSupport_Preferred_Size = 2 ∧
      value eVirtualKeyboardSupport_Preferred_Locale = 3 ∧
      value eVirtualKeyboardSupport_Preferred_SizeAndLocale = 4 ∧
      value eVirtualKeyboardSupport_Preferred_SizeDpiAndLocale = 5) ∧
    List.Pairwise (fun a b => value a < value b) enumerators ∧
    (∀ e, e ∈ enumerators) ∧
    (∀ a b, value a = value b → a = b) ∧
    IsStrictTotalOrder EVirtualKeyboardSupport (fun a b => value a < value b) ∧
    (∀ e, value eVirtualKeyboardSupport_NotSupported ≤ value e ∧
      value e ≤ value eVirtualKeyboardSupport_Preferred_SizeDpiAndLocale) ∧
    value eVirtualKeyboardSupport_Preferred_Size
      < value eVirtualKeyboardSupport_Preferred_SizeAndLocale ∧
    value eVirtualKeyboardSupport_Preferred_Locale
      < value eVirtualKeyboardSupport_Preferred_SizeAndLocale ∧
    value eVirtualKeyboardSupport_Preferred_SizeAndLocale
      < value eVirtualKeyboardSupport_Preferred_SizeDpiAndLocale := by
  have hinj : ∀ a b, value a = value b → a = b := by
    intro a b
    cases a <;> cases b <;> decide
  refine ⟨by decide, by decide, ?_, hinj, ?_, ?_, by decide, by decide, by decide⟩
  · intro e
    cases e <;> decide
  · exact
      { trichotomous := fun a b => by
          rcases lt_trichotomy (value a) (value b) with h | h | h
          · exact Or.inl h
          · exact Or.inr (Or.inl (hinj a b h))
          · exact Or.inr (Or.inr h)
        irrefl := fun a => lt_irrefl (value a)
        trans := fun a b c hab hbc => lt_trans hab hbc }
  · intro e
    cases e <;> decide

end EVirtualKeyboardSupport
